import Mathlib

/-!
Verification of the numeric core of `synth.py`: the resampler `speedx`,
the phase-vocoder `stretch`, and the composed `pitchshift`.

Buffers are modelled as Lean lists; Python/numpy floating-point arithmetic
is modelled by exact arithmetic in a linear ordered field (`ℚ` where the
computation is rational, `ℝ` where the DFT and the Hann window force
transcendental values).  Division by zero is modelled by Lean's total
division `x / 0 = 0`; at the one place where the source can divide by
zero (normalizing by a zero peak) this agrees with the observed numpy
behaviour, where the resulting NaN/infinite values are mapped to `0` by
the final `int16` cast.
-/

section PythonPrimitives

variable {α : Type} [LinearOrderedField α] [FloorRing α]

/-- Python `int()` applied to a float: truncation toward zero. -/
def trunc (x : α) : ℤ :=
  if x < 0 then ⌈x⌉ else ⌊x⌋

/-- numpy `astype('int16')` on an integer value: wrap modulo `2^16` into
`[-32768, 32767]`. -/
def wrap16 (z : ℤ) : ℤ := (z + 32768) % 65536 - 32768

/-- Python / numpy `%`: remainder with the sign of the divisor
(floor-based modulo), `a - b * ⌊a / b⌋`. -/
def pymod (a b : α) : α :=
  a - b * ⌊a / b⌋

/-- numpy `np.round`: round half to even (banker's rounding). -/
def npround (x : α) : ℤ :=
  if Int.fract x = 1 / 2 then (if Even ⌊x⌋ then ⌊x⌋ else ⌊x⌋ + 1)
  else round x

/-- numpy `np.arange(start, stop, step)`: `⌈(stop - start) / step⌉` values
spaced `step` apart starting at `start`.  (numpy raises for `step = 0`;
here the count is `0` in that unreachable case.) -/
def arange (start stop step : α) : List α :=
  (List.range (⌈(stop - start) / step⌉).toNat).map (fun (n : ℕ) => start + (n : α) * step)

/-- numpy `.max()` of a buffer: the plain (signed) maximum.  numpy raises
on an empty buffer; here the empty case returns `0`. -/
def listMax {β : Type} [LinearOrder β] [Zero β] : List β → β
  | [] => 0
  | x :: xs => xs.foldl max x

/-- Maximum absolute sample value of an integer buffer. -/
def intMaxAbs (l : List ℤ) : ℤ := l.foldl (fun a x => max a |x|) 0

end PythonPrimitives

/-- `speedx(snd_array, factor)` from `synth.py`: build
`np.arange(0, len(snd_array), factor)`, round each index to the nearest
integer, keep those strictly below `len(snd_array)`, and select the
samples at the surviving indices. -/
def speedx {α : Type} [LinearOrderedField α] [FloorRing α] {β : Type}
    (snd_array : List β) (factor : α) : List β :=
  let indices := ((arange 0 (snd_array.length : α) factor).map npround).filter
    (fun i => decide (i < (snd_array.length : ℤ)))
  indices.filterMap (fun i => snd_array.get? i.toNat)

/-- Per-bin phase-accumulator update from line 78 of `synth.py`:
`phase = (phase + np.angle(s2/s1)) % 2*np.pi`.  Python gives `%` and `*` equal
precedence, associating left to right, so the expression parses as
`((phase + angle) % 2) * np.pi`. -/
noncomputable def phaseUpdate (p d : ℝ) : ℝ := pymod (p + d) 2 * Real.pi

/-- The reading of line 78 described by the specification's design notes:
"multiply phase sum by 2, then take mod pi".  Defined only to be compared
against `phaseUpdate`, the update the source actually performs. -/
noncomputable def phaseUpdateClaimed (p d : ℝ) : ℝ := pymod (2 * (p + d)) Real.pi

/-- Modelled from the spec: numpy `np.hanning(M)`, the Hann taper
`0.5 - 0.5*cos(2*pi*n/(M-1))` for `n = 0, …, M-1`; numpy special-cases
`M = 1` to `[1.]`. -/
noncomputable def hanning (M : ℕ) : List ℝ :=
  if M = 1 then [1]
  else (List.range M).map (fun (n : ℕ) => 1/2 - 1/2 * Real.cos (2 * Real.pi * n / ((M : ℝ) - 1)))

/-- Modelled from the spec: `np.fft.fft` — "frequency-domain transform must be a
complex discrete Fourier transform (forward … ) of length window_size",
`X_k = Σ_n x_n · exp(-2πi·k·n/N)`. -/
noncomputable def fft (v : List ℂ) : List ℂ :=
  (List.range v.length).map (fun (k : ℕ) =>
    ((List.range v.length).map (fun (n : ℕ) =>
      v.getD n 0 * Complex.exp (-(2 * (Real.pi : ℂ) * Complex.I * k * n) / v.length))).sum)

/-- Modelled from the spec: `np.fft.ifft`, the inverse complex discrete Fourier
transform `x_n = (Σ_k X_k · exp(2πi·k·n/N)) / N`. -/
noncomputable def ifft (v : List ℂ) : List ℂ :=
  (List.range v.length).map (fun (n : ℕ) =>
    ((List.range v.length).map (fun (k : ℕ) =>
      v.getD k 0 * Complex.exp ((2 * (Real.pi : ℂ) * Complex.I * k * n) / v.length))).sum
      / v.length)

/-- numpy slice-accumulate `result[k : k + w.length] += w`, the only in-place
write in `stretch`.  The length of `result` is preserved.  (numpy raises a
broadcast error if the slice is shorter than `w`; here the addition silently
truncates in that case, which is unreachable for the positive-factor runs
considered below.) -/
def addSlice {α : Type} [Add α] (r : List α) (k : ℕ) (w : List α) : List α :=
  r.take k ++ List.zipWith (· + ·) ((r.drop k).take w.length) w ++ r.drop (k + w.length)

/-- One iteration of the `stretch` loop body (lines 67–82 of `synth.py`) as a
transformer of the state `(snd_array, phase, result)`.  The input buffer is the
first component: the body reads slices of it but never writes it.  `iFloat` is
the float loop cursor; the body first truncates it (`i = int(i)`).  Negative
cursors (unreachable for positive factor) would index from the end in Python;
here they clamp to 0. -/
noncomputable def stretchStep (window_size h : ℕ) (factor : ℝ)
    (st : List ℝ × List ℝ × List ℝ) (iFloat : ℝ) : List ℝ × List ℝ × List ℝ :=
  let i : ℤ := trunc iFloat
  let a1 := (st.1.drop i.toNat).take window_size
  let a2 := (st.1.drop (i.toNat + h)).take window_size
  let s1 := fft ((List.zipWith (· * ·) (hanning window_size) a1).map Complex.ofReal)
  let s2 := fft ((List.zipWith (· * ·) (hanning window_size) a2).map Complex.ofReal)
  let phase := List.zipWith phaseUpdate st.2.1 ((List.zipWith (· / ·) s2 s1).map Complex.arg)
  let a2_rephased := ifft (List.zipWith
    (fun (r p : ℝ) => (r : ℂ) * Complex.exp (Complex.I * (p : ℂ)))
    (s2.map Complex.abs) phase)
  let i2 : ℤ := trunc ((i : ℝ) / factor)
  (st.1, phase,
    addSlice st.2.2 i2.toNat
      (List.zipWith (· * ·) (hanning window_size) (a2_rephased.map Complex.re)))

/-- The float analysis cursors of the `stretch` loop:
`np.arange(0, len(snd_array) - (window_size + h), h*factor)`. -/
noncomputable def stretchIndices (len : ℕ) (factor : ℝ) (window_size h : ℕ) : List ℝ :=
  arange 0 ((len : ℝ) - ((window_size : ℝ) + (h : ℝ))) ((h : ℝ) * factor)

/-- The unnormalized `result` accumulator of `stretch`: fold the loop body over
the analysis cursors, starting from a fresh all-zero phase accumulator of length
`window_size` and an all-zero output of length `int(len(snd_array)/factor +
window_size)`.  (numpy raises for a negative allocation size, reachable only
for negative factor; here `Int.toNat` clamps it to 0.) -/
noncomputable def stretchRaw (snd_array : List ℝ) (factor : ℝ) (window_size h : ℕ) : List ℝ :=
  (List.foldl (stretchStep window_size h factor)
    (snd_array, List.replicate window_size 0,
      List.replicate (trunc ((snd_array.length : ℝ) / factor + (window_size : ℝ))).toNat 0)
    (stretchIndices snd_array.length factor window_size h)).2.2

/-- `stretch(snd_array, factor, window_size, h)` from `synth.py`: run the
overlap-add loop, then normalize and quantize by
`((2**(16-4)) * result / result.max()).astype('int16')`.  Note the division is
by the signed maximum `result.max()`, not by the maximum absolute value. -/
noncomputable def stretch (snd_array : List ℝ) (factor : ℝ) (window_size h : ℕ) : List ℤ :=
  (stretchRaw snd_array factor window_size h).map
    (fun x => wrap16 (trunc ((2 ^ (16 - 4) : ℝ) * x
      / listMax (stretchRaw snd_array factor window_size h))))

/-- `pitchshift(snd_array, n, window_size=2**13, h=2**11)` from `synth.py`:
`factor = 2**(1.0*n/12.0)`, stretch by `1.0/factor`, drop the first
`window_size` samples, resample by `factor`. -/
noncomputable def pitchshift (snd_array : List ℝ) (n : ℤ)
    (window_size : ℕ := 2 ^ 13) (h : ℕ := 2 ^ 11) : List ℤ :=
  let factor : ℝ := (2 : ℝ) ^ ((1 * (n : ℝ)) / 12)
  speedx ((stretch snd_array (1 / factor) window_size h).drop window_size) factor

section HelperLemmas

variable {α : Type} [LinearOrderedField α] [FloorRing α]

lemma arange_eval (start stop step : α) (N : ℕ)
    (h1 : (N : α) - 1 < (stop - start) / step) (h2 : (stop - start) / step ≤ (N : α)) :
    arange start stop step = (List.range N).map (fun (n : ℕ) => start + (n : α) * step) := by
  have hc : ⌈(stop - start) / step⌉ = (N : ℤ) := by
    rw [Int.ceil_eq_iff]
    constructor
    · push_cast; exact h1
    · push_cast; exact h2
  rw [arange, hc, Int.toNat_natCast]

lemma arange_nil (start stop step : α) (h : (stop - start) / step ≤ 0) :
    arange start stop step = [] := by
  have hc : (⌈(stop - start) / step⌉).toNat = 0 := by
    have : ⌈(stop - start) / step⌉ ≤ 0 := by
      exact_mod_cast Int.ceil_le.mpr (by exact_mod_cast h)
    omega
  rw [arange, hc]
  rfl

lemma npround_intCast (n : ℤ) : npround ((n : α)) = n := by
  rw [npround, if_neg]
  · exact round_intCast n
  · rw [Int.fract_intCast]
    intro h
    have : (0 : α) < 1 / 2 := by norm_num
    rw [← h] at this
    exact lt_irrefl _ this

lemma npround_natCast (n : ℕ) : npround ((n : α)) = n := by
  have := npround_intCast (α := α) (n : ℤ)
  rwa [Int.cast_natCast] at this

lemma npround_zero : npround (0 : α) = 0 := by
  have := npround_natCast (α := α) 0
  rwa [Nat.cast_zero] at this

lemma npround_nonneg {x : α} (hx : 0 ≤ x) : 0 ≤ npround x := by
  have hfl : (0 : ℤ) ≤ ⌊x⌋ := Int.floor_nonneg.mpr hx
  rw [npround]
  split
  · split <;> omega
  · have : (0 : ℤ) ≤ ⌊x + 1/2⌋ := Int.floor_nonneg.mpr (by linarith)
    rwa [round_eq]

lemma npround_le (x : α) : (npround x : α) ≤ x + 1 / 2 := by
  rw [npround]
  split
  · rename_i hf
    have hx : x = ⌊x⌋ + 1 / 2 := by
      have := Int.fract_add_floor x
      rw [hf] at this
      linarith
    split
    · linarith [Int.floor_le x]
    · push_cast
      linarith
  · rw [round_eq]
    linarith [Int.floor_le (x + 1/2)]

lemma gather_length {β : Type} (snd : List β) (idx : List ℤ)
    (h : ∀ i ∈ idx, 0 ≤ i ∧ i.toNat < snd.length) :
    (idx.filterMap (fun i => snd.get? i.toNat)).length = idx.length := by
  induction idx with
  | nil => rfl
  | cons a as ih =>
    have ha := h a (by simp)
    simp only [List.filterMap_cons, List.get?_eq_get ha.2, List.length_cons]
    rw [ih (fun i hi => h i (by simp [hi]))]

lemma gather_mem {β : Type} {snd : List β} {idx : List ℤ} {x : β}
    (hx : x ∈ idx.filterMap (fun i => snd.get? i.toNat)) : x ∈ snd := by
  rw [List.mem_filterMap] at hx
  obtain ⟨i, _, hget⟩ := hx
  exact List.get?_mem hget

end HelperLemmas

lemma speedx_nat_factor_length {α : Type} [LinearOrderedField α] [FloorRing α] {β : Type}
    (snd : List β) (m : ℕ) (hm : 1 ≤ m) :
    (speedx snd (m : α)).length = (⌈(snd.length : α) / m⌉).toNat := by
  have hm0 : (0:α) < m := by exact_mod_cast hm
  have hmapr : ((arange 0 (snd.length : α) (m : α)).map npround)
      = (List.range (⌈(snd.length : α) / m⌉).toNat).map (fun (n : ℕ) => ((n * m : ℕ) : ℤ)) := by
    rw [arange, sub_zero, List.map_map]
    apply List.map_congr_left
    intro n _
    show npround ((0:α) + (n:α) * m) = ((n * m : ℕ) : ℤ)
    rw [zero_add, show ((n:α) * m) = ((n * m : ℕ) : α) by push_cast; ring, npround_natCast]
  have hpass : ∀ n ∈ List.range (⌈(snd.length : α) / m⌉).toNat, n * m < snd.length := by
    intro n hn
    rw [List.mem_range] at hn
    have h1 : (n : ℤ) < ⌈(snd.length : α) / m⌉ := Int.lt_toNat.mp hn
    have h2 : ((n:α)) < (snd.length : α) / m := by exact_mod_cast Int.lt_ceil.mp h1
    have h3 : (n:α) * m < (snd.length : α) := (lt_div_iff₀ hm0).mp h2
    exact_mod_cast h3
  have hfilter : (((arange 0 (snd.length : α) (m : α)).map npround).filter
      (fun i => decide (i < (snd.length : ℤ))))
      = ((arange 0 (snd.length : α) (m : α)).map npround) := by
    rw [List.filter_eq_self]
    intro i hi
    rw [hmapr, List.mem_map] at hi
    obtain ⟨n, hn, rfl⟩ := hi
    exact decide_eq_true (by exact_mod_cast hpass n hn)
  simp only [speedx]
  rw [hfilter, hmapr, gather_length]
  · simp
  · intro i hi
    rw [List.mem_map] at hi
    obtain ⟨n, hn, rfl⟩ := hi
    refine ⟨by exact_mod_cast Nat.zero_le _, ?_⟩
    rw [Int.toNat_natCast]
    exact hpass n hn

lemma speedx_half_length (snd : List ℤ) (hne : snd ≠ []) :
    2 * snd.length - 1 ≤ (speedx snd (1/2 : ℚ)).length ∧
      (speedx snd (1/2 : ℚ)).length ≤ 2 * snd.length := by
  have hL : 0 < snd.length := List.length_pos.mpr hne
  have hceil : (⌈((snd.length : ℚ) - 0) / (1/2)⌉).toNat = 2 * snd.length := by
    rw [sub_zero, show (snd.length : ℚ) / (1/2) = ((2 * snd.length : ℕ) : ℚ) by push_cast; ring,
      Int.ceil_natCast, Int.toNat_natCast]
  have hmapr : ((arange 0 (snd.length : ℚ) (1/2 : ℚ)).map npround)
      = (List.range (2 * snd.length)).map
          (fun (n : ℕ) => npround ((0:ℚ) + (n:ℚ) * (1/2))) := by
    rw [arange, hceil, List.map_map]
    rfl
  have hnonneg : ∀ n : ℕ, 0 ≤ npround ((0:ℚ) + (n:ℚ) * (1/2)) := fun n =>
    npround_nonneg (by positivity)
  have hpass : ∀ n : ℕ, n + 2 ≤ 2 * snd.length → npround ((0:ℚ) + (n:ℚ) * (1/2)) < snd.length := by
    intro n hn
    have h1 : ((npround ((0:ℚ) + (n:ℚ) * (1/2)) : ℚ)) ≤ (0:ℚ) + (n:ℚ) * (1/2) + 1/2 :=
      npround_le _
    have h2 : ((n:ℚ)) ≤ (2 * snd.length : ℕ) - 2 := by
      have : (n : ℚ) ≤ ((2 * snd.length - 2 : ℕ) : ℚ) := by exact_mod_cast Nat.le_sub_of_add_le hn
      calc (n:ℚ) ≤ ((2 * snd.length - 2 : ℕ) : ℚ) := this
        _ ≤ ((2 * snd.length : ℕ) : ℚ) - 2 := by
            have h3 : (2:ℕ) ≤ 2 * snd.length := by omega
            push_cast [Nat.cast_sub h3]
            ring_nf
            exact le_refl _
    have h4 : ((npround ((0:ℚ) + (n:ℚ) * (1/2)) : ℚ)) < (snd.length : ℚ) := by
      push_cast at h2 ⊢
      nlinarith
    exact_mod_cast h4
  obtain ⟨K, hK⟩ : ∃ K, 2 * snd.length = K + 1 := ⟨2 * snd.length - 1, by omega⟩
  have hsplit : (List.range (2 * snd.length)).map
        (fun (n : ℕ) => npround ((0:ℚ) + (n:ℚ) * (1/2)))
      = ((List.range K).map (fun (n : ℕ) => npround ((0:ℚ) + (n:ℚ) * (1/2))))
        ++ [npround ((0:ℚ) + (K:ℚ) * (1/2))] := by
    rw [hK, List.range_succ, List.map_append, List.map_cons, List.map_nil]
  have hfirst : ((List.range K).map (fun (n : ℕ) => npround ((0:ℚ) + (n:ℚ) * (1/2)))).filter
        (fun i => decide (i < (snd.length : ℤ)))
      = (List.range K).map (fun (n : ℕ) => npround ((0:ℚ) + (n:ℚ) * (1/2))) := by
    rw [List.filter_eq_self]
    intro i hi
    rw [List.mem_map] at hi
    obtain ⟨n, hn, rfl⟩ := hi
    rw [List.mem_range] at hn
    exact decide_eq_true (hpass n (by omega))
  have hlen : (speedx snd (1/2 : ℚ)).length
      = ((((arange 0 (snd.length : ℚ) (1/2 : ℚ)).map npround).filter
          (fun i => decide (i < (snd.length : ℤ))))).length := by
    simp only [speedx]
    rw [gather_length]
    intro i hi
    rw [List.mem_filter] at hi
    obtain ⟨hmem, hcond⟩ := hi
    rw [hmapr, List.mem_map] at hmem
    obtain ⟨n, _, rfl⟩ := hmem
    have hlt : npround ((0:ℚ) + (n:ℚ) * (1/2)) < (snd.length : ℤ) := of_decide_eq_true hcond
    refine ⟨hnonneg n, ?_⟩
    omega
  rw [hlen, hmapr, hsplit, List.filter_append, hfirst, List.length_append, List.length_map,
    List.length_range]
  constructor
  · omega
  · have hle : (List.filter (fun i => decide (i < (snd.length : ℤ)))
        [npround ((0:ℚ) + (K:ℚ) * (1/2))]).length ≤ 1 := by
      classical
      simp only [List.filter]
      split <;> simp
    omega

lemma ceil_toNat_floor_close {x : ℚ} (hx : 0 ≤ x) : |((⌈x⌉.toNat : ℤ)) - ⌊x⌋| ≤ 1 := by
  have h1 : ⌊x⌋ ≤ ⌈x⌉ := Int.floor_le_ceil x
  have h2 : ⌈x⌉ ≤ ⌊x⌋ + 1 := Int.ceil_le_floor_add_one x
  have h3 : 0 ≤ ⌊x⌋ := Int.floor_nonneg.mpr hx
  have h4 : ((⌈x⌉.toNat : ℤ)) = ⌈x⌉ := Int.toNat_of_nonneg (by omega)
  rw [abs_le]
  omega

/-- C5: for every non-empty buffer and factor in `{0.5, 1, 2, 4}`, the length of
`speedx(buffer, factor)` equals `⌊len(buffer) / factor⌋` within plus or minus
one sample. -/
theorem speedx_length_contract (snd : List ℤ) (f : ℚ) (hne : snd ≠ [])
    (hf : f = 1/2 ∨ f = 1 ∨ f = 2 ∨ f = 4) :
    |((speedx snd f).length : ℤ) - ⌊(snd.length : ℚ) / f⌋| ≤ 1 := by
  have hL : 0 < snd.length := List.length_pos.mpr hne
  rcases hf with rfl | rfl | rfl | rfl
  · obtain ⟨hlo, hhi⟩ := speedx_half_length snd hne
    have hfl : ⌊(snd.length : ℚ) / (1/2)⌋ = ((2 * snd.length : ℕ) : ℤ) := by
      rw [show (snd.length : ℚ) / (1/2) = ((2 * snd.length : ℕ) : ℚ) by push_cast; ring,
        Int.floor_natCast]
    rw [hfl, abs_le]
    constructor <;> omega
  · have hlen := speedx_nat_factor_length (α := ℚ) snd 1 (by norm_num)
    rw [Nat.cast_one] at hlen
    rw [hlen]
    exact ceil_toNat_floor_close (by positivity)
  · have hlen := speedx_nat_factor_length (α := ℚ) snd 2 (by norm_num)
    rw [Nat.cast_ofNat] at hlen
    rw [hlen]
    exact ceil_toNat_floor_close (by positivity)
  · have hlen := speedx_nat_factor_length (α := ℚ) snd 4 (by norm_num)
    rw [Nat.cast_ofNat] at hlen
    rw [hlen]
    exact ceil_toNat_floor_close (by positivity)

/-- Witness for C5 at the concrete buffer `[1, 2, 3]` with factor `2`. -/
theorem speedx_length_contract_witness :
    ([1, 2, 3] : List ℤ) ≠ [] ∧
      |((speedx ([1, 2, 3] : List ℤ) (2:ℚ)).length : ℤ) -
        ⌊((([1, 2, 3] : List ℤ).length : ℚ)) / 2⌋| ≤ 1 := by
  exact ⟨by decide, speedx_length_contract [1, 2, 3] 2 (by decide) (by norm_num)⟩

/-- C6: for every non-empty input buffer and positive factor, every sample of
`speedx(buffer, factor)` equals some sample of the input buffer — resampling is
pure selection by rounded index and never synthesizes a new amplitude value. -/
theorem speedx_output_mem_input (snd : List ℤ) (f : ℚ) (_hne : snd ≠ []) (_hf : 0 < f) :
    ∀ x ∈ speedx snd f, x ∈ snd := by
  intro x hx
  simp only [speedx] at hx
  exact gather_mem hx

/-- Witness for C6 at the concrete buffer `[5, 7]` with factor `2`. -/
theorem speedx_output_mem_input_witness :
    ([5, 7] : List ℤ) ≠ [] ∧ (0:ℚ) < 2 ∧
      (5:ℤ) ∈ speedx ([5, 7] : List ℤ) (2:ℚ) ∧ (5:ℤ) ∈ ([5, 7] : List ℤ) := by
  have h5 : speedx ([5, 7] : List ℤ) (2:ℚ) = [5] := by
    rw [speedx]
    rw [show (([5, 7] : List ℤ).length : ℚ) = 2 by norm_num]
    rw [arange_eval (N := 1) _ _ _ (by norm_num) (by norm_num)]
    simp only [List.range_succ, List.range_zero, List.map_append, List.map_cons,
      List.map_nil, List.nil_append, List.cons_append]
    norm_num [npround, Int.fract, round_eq]
    decide
  refine ⟨by decide, by norm_num, h5 ▸ (by decide), ?_⟩
  exact speedx_output_mem_input [5, 7] 2 (by decide) (by norm_num) 5 (h5 ▸ (by decide))

/-- C10: for every non-empty input buffer and positive factor, `speedx` returns a
non-empty buffer whose first sample is the input's first sample (source index 0 is
always generated, rounds to 0, and survives the bounds filter); when the factor is
at least the buffer length, the result is exactly one sample, never empty. -/
theorem speedx_nonempty_head (snd : List ℤ) (f : ℚ) (hne : snd ≠ []) (hf : 0 < f) :
    speedx snd f ≠ [] ∧ (speedx snd f).head? = snd.head? ∧
      ((snd.length : ℚ) ≤ f → (speedx snd f).length = 1) := by
  obtain ⟨a, tl, rfl⟩ := List.exists_cons_of_ne_nil hne
  have hLpos : 0 < ((a :: tl).length : ℚ) := by
    have h : 0 < (a :: tl).length := by simp
    exact_mod_cast h
  have hdiv : 0 < ((a :: tl).length : ℚ) / f := div_pos hLpos hf
  have hceil : 0 < ⌈(((a :: tl).length : ℚ) - 0) / f⌉ := by
    rw [sub_zero]
    exact Int.ceil_pos.mpr hdiv
  obtain ⟨M, hM⟩ : ∃ M, (⌈(((a :: tl).length : ℚ) - 0) / f⌉).toNat = M + 1 :=
    ⟨(⌈(((a :: tl).length : ℚ) - 0) / f⌉).toNat - 1, by omega⟩
  have hc : ((0:ℤ) < ((a :: tl).length : ℤ)) := by
    exact_mod_cast List.length_pos.mpr (List.cons_ne_nil a tl)
  have hspeedx : speedx (a :: tl) f
      = a :: ((((List.range M).map (fun n => (0:ℚ) + (n + 1 : ℕ) * f)).map npround).filter
          (fun i => decide (i < ((a :: tl).length : ℤ)))).filterMap
          (fun i => (a :: tl).get? i.toNat) := by
    have hcons : arange 0 ((a :: tl).length : ℚ) f
        = 0 :: (List.range M).map (fun n => (0:ℚ) + (n + 1 : ℕ) * f) := by
      rw [arange, hM, List.range_succ_eq_map, List.map_cons, List.map_map]
      congr 1
      norm_num
    have hdec : (decide ((0:ℤ) < ((a :: tl).length : ℤ))) = true := decide_eq_true hc
    simp only [speedx, hcons, List.map_cons, npround_zero, List.filter_cons, hdec,
      eq_self_iff_true, if_true, List.filterMap_cons, Int.toNat_zero, List.get?_cons_zero]
  refine ⟨by rw [hspeedx]; exact List.cons_ne_nil _ _, by rw [hspeedx]; rfl, ?_⟩
  intro hLe
  have h1 : ⌈(((a :: tl).length : ℚ) - 0) / f⌉ = 1 := by
    rw [sub_zero, Int.ceil_eq_iff]
    refine ⟨by push_cast; linarith, ?_⟩
    push_cast
    exact (div_le_one hf).mpr hLe
  have hM0 : M = 0 := by
    rw [h1] at hM
    omega
  subst hM0
  rw [hspeedx]
  simp

/-- Witness for C10 at the concrete buffer `[5, 7]` with factor `3`. -/
theorem speedx_nonempty_head_witness :
    ([5, 7] : List ℤ) ≠ [] ∧ (0:ℚ) < 3 ∧
      (speedx ([5, 7] : List ℤ) (3:ℚ) ≠ [] ∧
        (speedx ([5, 7] : List ℤ) (3:ℚ)).head? = ([5, 7] : List ℤ).head? ∧
        ((([5, 7] : List ℤ).length : ℚ) ≤ 3 → (speedx ([5, 7] : List ℤ) (3:ℚ)).length = 1)) := by
  exact ⟨by decide, by norm_num, speedx_nonempty_head [5, 7] 3 (by decide) (by norm_num)⟩

section PymodLemmas

variable {α : Type} [LinearOrderedField α] [FloorRing α]

lemma pymod_eq_mul_fract {a b : α} (hb : b ≠ 0) : pymod a b = b * Int.fract (a / b) := by
  have hmul : b * (a / b) = a := by field_simp
  rw [pymod, Int.fract, mul_sub, hmul]

lemma pymod_nonneg {a b : α} (hb : 0 < b) : 0 ≤ pymod a b := by
  rw [pymod_eq_mul_fract hb.ne']
  exact mul_nonneg hb.le (Int.fract_nonneg _)

lemma pymod_lt {a b : α} (hb : 0 < b) : pymod a b < b := by
  rw [pymod_eq_mul_fract hb.ne']
  calc b * Int.fract (a / b) < b * 1 := mul_lt_mul_of_pos_left (Int.fract_lt_one _) hb
    _ = b := mul_one b

lemma trunc_zero : trunc (0 : α) = 0 := by
  rw [trunc, if_neg (lt_irrefl 0), Int.floor_zero]

lemma trunc_natCast (n : ℕ) : trunc ((n : α)) = n := by
  rw [trunc, if_neg (not_lt.mpr (Nat.cast_nonneg n)), Int.floor_natCast]

lemma wrap16_eq_self {z : ℤ} (h1 : -32768 ≤ z) (h2 : z ≤ 32767) : wrap16 z = z := by
  rw [wrap16, Int.emod_eq_of_lt (by omega) (by omega)]
  omega

end PymodLemmas

lemma addSlice_length {α : Type} [Add α] (r : List α) (k : ℕ) (w : List α) :
    (addSlice r k w).length = r.length := by
  simp only [addSlice, List.length_append, List.length_take, List.length_zipWith,
    List.length_drop]
  omega

lemma stretchStep_fst (ws h : ℕ) (f : ℝ) (st : List ℝ × List ℝ × List ℝ) (i : ℝ) :
    (stretchStep ws h f st i).1 = st.1 := rfl

lemma stretchStep_result_length (ws h : ℕ) (f : ℝ) (st : List ℝ × List ℝ × List ℝ) (i : ℝ) :
    ((stretchStep ws h f st i).2.2).length = st.2.2.length := by
  simp only [stretchStep]
  exact addSlice_length _ _ _

lemma foldl_stretchStep_fst (ws h : ℕ) (f : ℝ) (idx : List ℝ)
    (st : List ℝ × List ℝ × List ℝ) :
    (List.foldl (stretchStep ws h f) st idx).1 = st.1 := by
  induction idx generalizing st with
  | nil => rfl
  | cons a as ih => rw [List.foldl_cons, ih, stretchStep_fst]

lemma foldl_stretchStep_result_length (ws h : ℕ) (f : ℝ) (idx : List ℝ)
    (st : List ℝ × List ℝ × List ℝ) :
    ((List.foldl (stretchStep ws h f) st idx).2.2).length = st.2.2.length := by
  induction idx generalizing st with
  | nil => rfl
  | cons a as ih => rw [List.foldl_cons, ih, stretchStep_result_length]

lemma stretchRaw_length (snd : List ℝ) (f : ℝ) (ws h : ℕ) :
    (stretchRaw snd f ws h).length = (trunc ((snd.length : ℝ) / f + (ws : ℝ))).toNat := by
  rw [stretchRaw, foldl_stretchStep_result_length]
  exact List.length_replicate _ _

/-- C2 (counterexample): at accumulator value `0` and per-bin phase difference
`3` (a value `np.angle` can return, since `3 < π`), the update the source
performs — `((phase + angle) % 2) * pi`, by Python's left-to-right precedence
for `%` and `*` — differs from the claimed reading "multiply the phase sum by 2
and take the result modulo pi". -/
theorem phase_update_precedence_counterexample :
    phaseUpdate 0 3 ≠ phaseUpdateClaimed 0 3 := by
  have hpi3 : (3:ℝ) < Real.pi := Real.pi_gt_three
  have hpi4 : Real.pi < 4 := Real.pi_lt_four
  have h1 : phaseUpdate 0 3 = Real.pi := by
    rw [phaseUpdate, pymod, zero_add]
    norm_num
  have h2 : phaseUpdateClaimed 0 3 = 6 - Real.pi := by
    rw [phaseUpdateClaimed, pymod, zero_add]
    have hfl : ⌊(2 * (3:ℝ)) / Real.pi⌋ = 1 := by
      rw [Int.floor_eq_iff]
      constructor
      · rw [le_div_iff₀ (by positivity)]
        push_cast
        linarith
      · rw [div_lt_iff₀ (by positivity)]
        push_cast
        linarith
    rw [hfl]
    push_cast
    ring
  rw [h1, h2]
  intro hcontra
  nlinarith

/-- C2 (amended): at every hop, each phase-accumulator entry is updated to
`((previous + angle(s2/s1)) mod 2) * π` — Python binds `% 2` before the
multiplication by `np.pi` — so the updated entry always lies in `[0, 2π)`. -/
theorem phase_update_mod_two_mul_pi (p d : ℝ) :
    phaseUpdate p d = (p + d - 2 * ⌊(p + d) / 2⌋) * Real.pi ∧
      0 ≤ phaseUpdate p d ∧ phaseUpdate p d < 2 * Real.pi := by
  refine ⟨rfl, ?_, ?_⟩
  · exact mul_nonneg (pymod_nonneg (by norm_num)) Real.pi_pos.le
  · rw [phaseUpdate]
    calc pymod (p + d) 2 * Real.pi < 2 * Real.pi :=
      mul_lt_mul_of_pos_right (pymod_lt (by norm_num)) Real.pi_pos
    _ = 2 * Real.pi := rfl

/-- C8: the operations of the core never write to the input buffer.  The only
in-place mutation in the source is `result[i2:i2+window_size] += …` inside the
`stretch` loop; as a transformer of the state `(snd_array, phase, result)`, any
number of loop iterations leaves the input-buffer component unchanged, so
`speedx`, `stretch` and `pitchshift` (whose only loop is this one) return fresh
buffers and never mutate their input. -/
theorem stretch_loop_preserves_input (ws h : ℕ) (f : ℝ)
    (snd phase0 result0 : List ℝ) (idx : List ℝ) :
    (List.foldl (stretchStep ws h f) (snd, phase0, result0) idx).1 = snd :=
  foldl_stretchStep_fst ws h f idx (snd, phase0, result0)

/-- C9: `stretch` and `pitchshift` are deterministic — equal input buffers and
equal parameters give equal outputs; each invocation starts from a freshly
zero-initialized phase accumulator, and no state is shared between calls. -/
theorem stretch_pitchshift_deterministic (snd1 snd2 : List ℝ) (f1 f2 : ℝ)
    (ws1 ws2 h1 h2 : ℕ) (n1 n2 : ℤ)
    (hsnd : snd1 = snd2) (hfac : f1 = f2) (hws : ws1 = ws2) (hh : h1 = h2) (hn : n1 = n2) :
    stretch snd1 f1 ws1 h1 = stretch snd2 f2 ws2 h2 ∧
      pitchshift snd1 n1 ws1 h1 = pitchshift snd2 n2 ws2 h2 := by
  subst hsnd hfac hws hh hn
  exact ⟨rfl, rfl⟩

/-- Witness for C9 at a concrete buffer and parameters. -/
theorem stretch_pitchshift_deterministic_witness :
    stretch ([1, 2] : List ℝ) 1 4 2 = stretch ([1, 2] : List ℝ) 1 4 2 ∧
      pitchshift ([1, 2] : List ℝ) 0 4 2 = pitchshift ([1, 2] : List ℝ) 0 4 2 :=
  stretch_pitchshift_deterministic [1, 2] [1, 2] 1 1 4 4 2 2 0 0 rfl rfl rfl rfl rfl

/-- C1: for a buffer shorter than `window_size + hop` (positive factor, window
size and hop), the analysis-cursor list is empty — the loop performs zero
iterations — and `stretch` returns a buffer of all zeros; no division error is
raised (numpy's division of the all-zero accumulator by its zero peak yields
NaN values with only a warning, and the final `int16` cast maps them to 0,
which the embedding models by `x / 0 = 0`). -/
theorem stretch_short_buffer_all_zero (snd : List ℝ) (f : ℝ) (ws h : ℕ)
    (hlen : snd.length < ws + h) (hf : 0 < f) (_hws : 0 < ws) (hh : 0 < h) :
    stretchIndices snd.length f ws h = [] ∧
      stretch snd f ws h = List.replicate (trunc ((snd.length : ℝ) / f + (ws : ℝ))).toNat 0 := by
  have hstop : ((snd.length : ℝ) - ((ws : ℝ) + (h : ℝ))) < 0 := by
    have hc : (snd.length : ℝ) < (ws : ℝ) + (h : ℝ) := by exact_mod_cast hlen
    linarith
  have hstep : (0:ℝ) < (h : ℝ) * f := mul_pos (by exact_mod_cast hh) hf
  have hidx : stretchIndices snd.length f ws h = [] := by
    rw [stretchIndices]
    apply arange_nil
    rw [sub_zero]
    exact div_nonpos_of_nonpos_of_nonneg hstop.le hstep.le
  have hraw : stretchRaw snd f ws h
      = List.replicate (trunc ((snd.length : ℝ) / f + (ws : ℝ))).toNat 0 := by
    rw [stretchRaw, hidx, List.foldl_nil]
  refine ⟨hidx, ?_⟩
  rw [stretch, hraw, List.map_replicate]
  congr 1
  rw [mul_zero, zero_div, trunc_zero]
  decide

/-- Witness for C1 at the concrete buffer `[1, 2, 3]` with factor 1, window
size 4, hop 2: the cursor list is empty and the output is seven zeros. -/
theorem stretch_short_buffer_all_zero_witness :
    ([1, 2, 3] : List ℝ).length < 4 + 2 ∧ (0:ℝ) < 1 ∧
      stretchIndices ([1, 2, 3] : List ℝ).length 1 4 2 = [] ∧
      stretch ([1, 2, 3] : List ℝ) 1 4 2 = List.replicate 7 0 := by
  have hmain := stretch_short_buffer_all_zero [1, 2, 3] 1 4 2 (by norm_num) (by norm_num)
    (by norm_num) (by norm_num)
  refine ⟨by norm_num, by norm_num, hmain.1, ?_⟩
  have h2 := hmain.2
  rw [show (trunc ((([1, 2, 3] : List ℝ).length : ℝ) / 1 + ((4:ℕ) : ℝ))).toNat = 7 by
    norm_num [trunc]
    decide] at h2
  exact h2

/-- C7 (amended): `stretch` performs no configuration validation.  For any
window size and hop — including the invalid configuration `window_size ≤ hop` —
and positive factor, it proceeds with the computation and returns a buffer of
the allocated length `int(len(buffer)/factor + window_size)` instead of failing
fast with a configuration error.  (Zero or negative factor does abort, but via
an incidental `ZeroDivisionError`/`ValueError` from numpy internals, not via a
configuration check.) -/
theorem stretch_proceeds_any_window_hop (snd : List ℝ) (f : ℝ) (ws h : ℕ) (_hf : 0 < f) :
    (stretch snd f ws h).length = (trunc ((snd.length : ℝ) / f + (ws : ℝ))).toNat := by
  rw [stretch, List.length_map, stretchRaw_length]

/-- Witness for C7's amended theorem: with the invalid configuration
`window_size = 1 ≤ 2 = hop`, `stretch` still returns a buffer, of the normal
allocated length. -/
theorem stretch_proceeds_any_window_hop_witness :
    (0:ℝ) < 1 ∧ (stretch ([1, 2, 3, 4, 5, 6, 7, 8, 9] : List ℝ) 1 1 2).length = 10 := by
  have h := stretch_proceeds_any_window_hop [1, 2, 3, 4, 5, 6, 7, 8, 9] 1 1 2 (by norm_num)
  refine ⟨by norm_num, ?_⟩
  rw [h]
  norm_num [trunc]
  decide

lemma trunc_intCast {α : Type} [LinearOrderedField α] [FloorRing α] (n : ℤ) :
    trunc ((n : α)) = n := by
  rw [trunc]
  split <;> simp

lemma phaseUpdate_zero : phaseUpdate 0 0 = 0 := by
  rw [phaseUpdate, pymod]
  norm_num

lemma hanning_one : hanning 1 = [1] := by
  rw [hanning, if_pos rfl]

lemma fft_one (z : ℂ) : fft [z] = [z] := by
  rw [fft]
  simp [List.range_succ, Complex.exp_zero]

lemma ifft_one (z : ℂ) : ifft [z] = [z] := by
  rw [ifft]
  simp [List.range_succ, Complex.exp_zero]

lemma stretchStep_ws1 (snd : List ℝ) (r : List ℝ) (iF : ℝ) (i : ℕ) (x y : ℝ)
    (hi : trunc iF = (i : ℤ))
    (hx : (snd.drop i).take 1 = [x])
    (hy : (snd.drop (i + 2)).take 1 = [y])
    (hx0 : 0 < x) (hy0 : 0 ≤ y) :
    stretchStep 1 2 1 (snd, [0], r) iF = (snd, [0], addSlice r i [y]) := by
  have hratio : ((y : ℂ)) / ((x : ℂ)) = ((y / x : ℝ) : ℂ) := by
    rw [Complex.ofReal_div]
  have harg : Complex.arg ((y / x : ℝ) : ℂ) = 0 :=
    Complex.arg_ofReal_of_nonneg (div_nonneg hy0 hx0.le)
  have habs : Complex.abs ((y : ℝ) : ℂ) = y := by
    rw [Complex.abs_ofReal, abs_of_nonneg hy0]
  simp only [stretchStep, hi, Int.toNat_natCast, hx, hy, hanning_one,
    List.zipWith_cons_cons, List.zipWith_nil_right, List.zipWith_nil_left,
    one_mul, List.map_cons, List.map_nil, fft_one, hratio, harg,
    phaseUpdate_zero, habs, Complex.ofReal_zero, mul_zero, Complex.exp_zero,
    mul_one, ifft_one, Complex.ofReal_re, Int.cast_natCast, div_one,
    trunc_intCast, trunc_natCast]

lemma stretchIndices_r3 : stretchIndices 9 1 1 2 = [0, 2, 4] := by
  rw [stretchIndices]
  rw [arange_eval (N := 3) _ _ _ (by norm_num) (by norm_num)]
  simp only [List.range_succ, List.range_zero, List.map_append, List.map_cons, List.map_nil,
    List.nil_append, List.cons_append]
  norm_num

lemma stretchRaw_r3 : stretchRaw ([1, 2, 3, 4, 5, 6, 7, 8, 9] : List ℝ) 1 1 2
    = [3, 0, 5, 0, 7, 0, 0, 0, 0, 0] := by
  have hstep1 : stretchStep 1 2 1 (([1, 2, 3, 4, 5, 6, 7, 8, 9] : List ℝ), [0],
      [0, 0, 0, 0, 0, 0, 0, 0, 0, 0]) 0
      = (([1, 2, 3, 4, 5, 6, 7, 8, 9] : List ℝ), [0], [3, 0, 0, 0, 0, 0, 0, 0, 0, 0]) := by
    rw [stretchStep_ws1 ([1, 2, 3, 4, 5, 6, 7, 8, 9] : List ℝ) _ _ 0 1 3
      (by norm_num [trunc]) rfl rfl (by norm_num) (by norm_num)]
    simp [addSlice]
  have hstep2 : stretchStep 1 2 1 (([1, 2, 3, 4, 5, 6, 7, 8, 9] : List ℝ), [0],
      [3, 0, 0, 0, 0, 0, 0, 0, 0, 0]) 2
      = (([1, 2, 3, 4, 5, 6, 7, 8, 9] : List ℝ), [0], [3, 0, 5, 0, 0, 0, 0, 0, 0, 0]) := by
    rw [stretchStep_ws1 ([1, 2, 3, 4, 5, 6, 7, 8, 9] : List ℝ) _ _ 2 3 5
      (by norm_num [trunc]) rfl rfl (by norm_num) (by norm_num)]
    simp [addSlice]
  have hstep3 : stretchStep 1 2 1 (([1, 2, 3, 4, 5, 6, 7, 8, 9] : List ℝ), [0],
      [3, 0, 5, 0, 0, 0, 0, 0, 0, 0]) 4
      = (([1, 2, 3, 4, 5, 6, 7, 8, 9] : List ℝ), [0], [3, 0, 5, 0, 7, 0, 0, 0, 0, 0]) := by
    rw [stretchStep_ws1 ([1, 2, 3, 4, 5, 6, 7, 8, 9] : List ℝ) _ _ 4 5 7
      (by norm_num [trunc]) rfl rfl (by norm_num) (by norm_num)]
    simp [addSlice]
  have hlen : ([1, 2, 3, 4, 5, 6, 7, 8, 9] : List ℝ).length = 9 := rfl
  rw [stretchRaw, hlen, stretchIndices_r3]
  rw [show (trunc (((9:ℕ) : ℝ) / 1 + ((1:ℕ) : ℝ))).toNat = 10 by
    norm_num [trunc]
    decide]
  rw [show List.replicate 10 (0:ℝ) = [0, 0, 0, 0, 0, 0, 0, 0, 0, 0] from rfl,
    show List.replicate 1 (0:ℝ) = [0] from rfl]
  rw [List.foldl_cons, hstep1, List.foldl_cons, hstep2, List.foldl_cons, hstep3, List.foldl_nil]

lemma listMax_r3 : listMax ([3, 0, 5, 0, 7, 0, 0, 0, 0, 0] : List ℝ) = 7 := by
  norm_num [listMax, max_def]

/-- C7 (counterexample): with the invalid configuration `window_size = 1 ≤ 2 =
hop` and positive factor, `stretch` does not fail fast with a configuration
error: it proceeds with the computation and returns an ordinary normalized
buffer. -/
theorem stretch_no_validation_counterexample :
    stretch ([1, 2, 3, 4, 5, 6, 7, 8, 9] : List ℝ) 1 1 2
      = [1755, 0, 2925, 0, 4096, 0, 0, 0, 0, 0] := by
  rw [stretch, stretchRaw_r3, listMax_r3]
  simp only [List.map_cons, List.map_nil]
  norm_num [trunc, wrap16]

lemma hanning_four : hanning 4 = [0, 3/4, 3/4, 0] := by
  have hc1 : Real.cos (2 * Real.pi / 3) = -(1/2) := by
    rw [show 2 * Real.pi / 3 = Real.pi - Real.pi / 3 by ring]
    rw [Real.cos_pi_sub, Real.cos_pi_div_three]
  have hc2 : Real.cos (2 * Real.pi * 2 / 3) = -(1/2) := by
    rw [show 2 * Real.pi * 2 / 3 = 2 * Real.pi - (Real.pi - Real.pi / 3) by ring]
    rw [Real.cos_two_pi_sub, Real.cos_pi_sub, Real.cos_pi_div_three]
  rw [hanning, if_neg (by norm_num)]
  simp only [List.range_succ, List.range_zero, List.map_append, List.map_cons, List.map_nil,
    List.nil_append, List.cons_append]
  norm_num [hc1, hc2, Real.cos_two_pi, Real.cos_zero]

lemma cexp_quarter_aux_neg : Complex.exp ((↑(-Real.pi / 2) : ℂ) * Complex.I) = -Complex.I := by
  rw [Complex.exp_mul_I, ← Complex.ofReal_cos, ← Complex.ofReal_sin]
  rw [show -Real.pi / 2 = -(Real.pi / 2) by ring]
  rw [Real.cos_neg, Real.sin_neg, Real.cos_pi_div_two, Real.sin_pi_div_two]
  push_cast
  ring

lemma cexp_quarter_aux_pos : Complex.exp ((↑(Real.pi / 2) : ℂ) * Complex.I) = Complex.I := by
  rw [Complex.exp_mul_I, ← Complex.ofReal_cos, ← Complex.ofReal_sin]
  rw [Real.cos_pi_div_two, Real.sin_pi_div_two]
  push_cast
  ring

lemma cexp_neg_quarter (k n : ℕ) :
    Complex.exp (-(2 * (Real.pi : ℂ) * Complex.I * (k : ℂ) * (n : ℂ)) / ((4:ℕ) : ℂ))
      = (-Complex.I) ^ (k * n) := by
  have harg : -(2 * (Real.pi : ℂ) * Complex.I * (k : ℂ) * (n : ℂ)) / ((4:ℕ) : ℂ)
      = ((k * n : ℕ) : ℂ) * ((↑(-Real.pi / 2) : ℂ) * Complex.I) := by
    push_cast
    ring
  rw [harg, Complex.exp_nat_mul, cexp_quarter_aux_neg]

lemma cexp_pos_quarter (k n : ℕ) :
    Complex.exp ((2 * (Real.pi : ℂ) * Complex.I * (k : ℂ) * (n : ℂ)) / ((4:ℕ) : ℂ))
      = Complex.I ^ (k * n) := by
  have harg : (2 * (Real.pi : ℂ) * Complex.I * (k : ℂ) * (n : ℂ)) / ((4:ℕ) : ℂ)
      = ((k * n : ℕ) : ℂ) * ((↑(Real.pi / 2) : ℂ) * Complex.I) := by
    push_cast
    ring
  rw [harg, Complex.exp_nat_mul, cexp_quarter_aux_pos]

lemma I_pow_three : Complex.I ^ 3 = -Complex.I := by
  rw [pow_succ, Complex.I_sq]
  ring

lemma I_pow_four : Complex.I ^ 4 = 1 := by
  rw [show (4:ℕ) = 2 + 2 from rfl, pow_add, Complex.I_sq]
  ring

lemma I_pow_six : Complex.I ^ 6 = -1 := by
  rw [show (6:ℕ) = 4 + 2 from rfl, pow_add, I_pow_four, Complex.I_sq]
  ring

lemma I_pow_nine : Complex.I ^ 9 = Complex.I := by
  rw [show (9:ℕ) = 4 + (4 + 1) from rfl, pow_add, pow_add, I_pow_four, pow_one]
  ring

lemma negI_pow_two : (-Complex.I) ^ 2 = -1 := by
  rw [neg_pow, Complex.I_sq]
  ring

lemma negI_pow_three : (-Complex.I) ^ 3 = Complex.I := by
  rw [neg_pow, I_pow_three]
  norm_num

lemma negI_pow_four : (-Complex.I) ^ 4 = 1 := by
  rw [neg_pow, I_pow_four]
  norm_num

lemma negI_pow_six : (-Complex.I) ^ 6 = -1 := by
  rw [neg_pow, I_pow_six]
  norm_num

lemma negI_pow_nine : (-Complex.I) ^ 9 = -Complex.I := by
  rw [neg_pow, I_pow_nine]
  norm_num

lemma fft_four (z0 z1 z2 z3 : ℂ) :
    fft [z0, z1, z2, z3]
      = [z0 + z1 + z2 + z3,
         z0 - z1 * Complex.I - z2 + z3 * Complex.I,
         z0 - z1 + z2 - z3,
         z0 + z1 * Complex.I - z2 - z3 * Complex.I] := by
  have g0 : ([z0, z1, z2, z3] : List ℂ).getD 0 0 = z0 := rfl
  have g1 : ([z0, z1, z2, z3] : List ℂ).getD 1 0 = z1 := rfl
  have g2 : ([z0, z1, z2, z3] : List ℂ).getD 2 0 = z2 := rfl
  have g3 : ([z0, z1, z2, z3] : List ℂ).getD 3 0 = z3 := rfl
  rw [fft]
  simp only [show ([z0, z1, z2, z3] : List ℂ).length = 4 from rfl]
  simp only [List.range_succ, List.range_zero, List.map_append, List.map_cons, List.map_nil,
    List.nil_append, List.cons_append, List.sum_append, List.sum_cons, List.sum_nil,
    g0, g1, g2, g3, cexp_neg_quarter]
  norm_num [negI_pow_two, negI_pow_three, negI_pow_four, negI_pow_six, negI_pow_nine]
  refine ⟨by ring, by ring, by ring, by ring⟩

lemma ifft_four (z0 z1 z2 z3 : ℂ) :
    ifft [z0, z1, z2, z3]
      = [(z0 + z1 + z2 + z3) / 4,
         (z0 + z1 * Complex.I - z2 - z3 * Complex.I) / 4,
         (z0 - z1 + z2 - z3) / 4,
         (z0 - z1 * Complex.I - z2 + z3 * Complex.I) / 4] := by
  have g0 : ([z0, z1, z2, z3] : List ℂ).getD 0 0 = z0 := rfl
  have g1 : ([z0, z1, z2, z3] : List ℂ).getD 1 0 = z1 := rfl
  have g2 : ([z0, z1, z2, z3] : List ℂ).getD 2 0 = z2 := rfl
  have g3 : ([z0, z1, z2, z3] : List ℂ).getD 3 0 = z3 := rfl
  rw [ifft]
  simp only [show ([z0, z1, z2, z3] : List ℂ).length = 4 from rfl]
  simp only [List.range_succ, List.range_zero, List.map_append, List.map_cons, List.map_nil,
    List.nil_append, List.cons_append, List.sum_append, List.sum_cons, List.sum_nil,
    g0, g1, g2, g3, cexp_pos_quarter]
  norm_num [I_pow_three, I_pow_four, I_pow_six, I_pow_nine, Complex.I_sq]
  refine ⟨by ring, by ring, by ring, by ring⟩

lemma cabs_add_mul_I (x y r : ℝ) (hr : 0 ≤ r) (hxy : x ^ 2 + y ^ 2 = r ^ 2) :
    Complex.abs ((x : ℂ) + (y : ℝ) * Complex.I) = r := by
  rw [Complex.abs_apply, Complex.normSq_add_mul_I, hxy, Real.sqrt_sq hr]

lemma stretchStep_r2 :
    stretchStep 4 2 1 (([3, 4, 3, 4, 3, 4, 3] : List ℝ), [0, 0, 0, 0],
      [0, 0, 0, 0, 0, 0, 0, 0, 0, 0, 0]) 0
    = (([3, 4, 3, 4, 3, 4, 3] : List ℝ), [0, 0, 0, 0],
      [0, 27/32, -(9/32), 0, 0, 0, 0, 0, 0, 0, 0]) := by
  have ha1 : (([3, 4, 3, 4, 3, 4, 3] : List ℝ)).take 4 = [3, 4, 3, 4] := rfl
  have ha2 : (([3, 4, 3, 4, 3, 4, 3] : List ℝ).drop 2).take 4 = [3, 4, 3, 4] := rfl
  have hw : List.zipWith (· * ·) (hanning 4) ([3, 4, 3, 4] : List ℝ) = [0, 3, 9/4, 0] := by
    rw [hanning_four]
    simp only [List.zipWith_cons_cons, List.zipWith_nil_right]
    norm_num
  have hmapc : ([0, 3, 9/4, 0] : List ℝ).map Complex.ofReal = [(0:ℂ), 3, 9/4, 0] := by
    simp only [List.map_cons, List.map_nil]
    push_cast
    rfl
  have hfft : fft [(0:ℂ), 3, 9/4, 0]
      = [((21/4:ℝ):ℂ), ((-(9/4):ℝ):ℂ) + ((-3:ℝ):ℂ) * Complex.I, ((-(3/4):ℝ):ℂ),
         ((-(9/4):ℝ):ℂ) + ((3:ℝ):ℂ) * Complex.I] := by
    rw [fft_four]
    simp only [List.cons.injEq, and_true]
    refine ⟨by push_cast; ring, by push_cast; ring, by push_cast; ring, by push_cast; ring⟩
  have hne0 : ((21/4:ℝ):ℂ) ≠ 0 := by
    rw [Complex.ofReal_ne_zero]
    norm_num
  have hne1 : ((-(9/4):ℝ):ℂ) + ((-3:ℝ):ℂ) * Complex.I ≠ 0 := by
    intro hcontra
    have him := congrArg Complex.im hcontra
    simp at him
  have hne2 : ((-(3/4):ℝ):ℂ) ≠ 0 := by
    rw [Complex.ofReal_ne_zero]
    norm_num
  have hne3 : ((-(9/4):ℝ):ℂ) + ((3:ℝ):ℂ) * Complex.I ≠ 0 := by
    intro hcontra
    have him := congrArg Complex.im hcontra
    simp at him
  have hdiv : List.zipWith (· / ·)
      [((21/4:ℝ):ℂ), ((-(9/4):ℝ):ℂ) + ((-3:ℝ):ℂ) * Complex.I, ((-(3/4):ℝ):ℂ),
         ((-(9/4):ℝ):ℂ) + ((3:ℝ):ℂ) * Complex.I]
      [((21/4:ℝ):ℂ), ((-(9/4):ℝ):ℂ) + ((-3:ℝ):ℂ) * Complex.I, ((-(3/4):ℝ):ℂ),
         ((-(9/4):ℝ):ℂ) + ((3:ℝ):ℂ) * Complex.I] = [1, 1, 1, 1] := by
    simp only [List.zipWith_cons_cons, List.zipWith_nil_right]
    rw [div_self hne0, div_self hne1, div_self hne2, div_self hne3]
  have hargs : ([(1:ℂ), 1, 1, 1]).map Complex.arg = [0, 0, 0, 0] := by
    simp [Complex.arg_one]
  have hphase : List.zipWith phaseUpdate ([0, 0, 0, 0] : List ℝ) ([0, 0, 0, 0] : List ℝ)
      = ([0, 0, 0, 0] : List ℝ) := by
    simp only [List.zipWith_cons_cons, List.zipWith_nil_right, phaseUpdate_zero]
  have habs : ([((21/4:ℝ):ℂ), ((-(9/4):ℝ):ℂ) + ((-3:ℝ):ℂ) * Complex.I, ((-(3/4):ℝ):ℂ),
      ((-(9/4):ℝ):ℂ) + ((3:ℝ):ℂ) * Complex.I]).map Complex.abs
      = [21/4, 15/4, 3/4, 15/4] := by
    simp only [List.map_cons, List.map_nil,
      cabs_add_mul_I (-(9/4)) (-3) (15/4) (by norm_num) (by norm_num),
      cabs_add_mul_I (-(9/4)) 3 (15/4) (by norm_num) (by norm_num),
      Complex.abs_ofReal]
    norm_num
  have hreph : List.zipWith (fun (r p : ℝ) => (r : ℂ) * Complex.exp (Complex.I * (p : ℂ)))
      ([21/4, 15/4, 3/4, 15/4] : List ℝ) ([0, 0, 0, 0] : List ℝ)
      = [((21/4:ℝ):ℂ), ((15/4:ℝ):ℂ), ((3/4:ℝ):ℂ), ((15/4:ℝ):ℂ)] := by
    simp [Complex.exp_zero]
  have hifft : ifft [((21/4:ℝ):ℂ), ((15/4:ℝ):ℂ), ((3/4:ℝ):ℂ), ((15/4:ℝ):ℂ)]
      = [((27/8:ℝ):ℂ), ((9/8:ℝ):ℂ), ((-(3/8):ℝ):ℂ), ((9/8:ℝ):ℂ)] := by
    rw [ifft_four]
    simp only [List.cons.injEq, and_true]
    refine ⟨by push_cast; ring, by push_cast; ring, by push_cast; ring, by push_cast; ring⟩
  have hre : ([((27/8:ℝ):ℂ), ((9/8:ℝ):ℂ), ((-(3/8):ℝ):ℂ), ((9/8:ℝ):ℂ)]).map Complex.re
      = ([27/8, 9/8, -(3/8), 9/8] : List ℝ) := by
    simp
  have hwr : List.zipWith (· * ·) (hanning 4) ([27/8, 9/8, -(3/8), 9/8] : List ℝ)
      = [0, 27/32, -(9/32), 0] := by
    rw [hanning_four]
    simp only [List.zipWith_cons_cons, List.zipWith_nil_right]
    norm_num
  have haddS : addSlice ([0, 0, 0, 0, 0, 0, 0, 0, 0, 0, 0] : List ℝ) 0
      [0, 27/32, -(9/32), 0] = [0, 27/32, -(9/32), 0, 0, 0, 0, 0, 0, 0, 0] := by
    simp [addSlice]
  simp only [stretchStep, trunc_zero, Int.toNat_zero, List.drop_zero, zero_add,
    ha1, ha2, hw, hmapc, hfft, hdiv, hargs, hphase, habs, hreph, hifft, hre, hwr,
    Int.cast_zero, zero_div, haddS]

lemma stretchStep_r1 :
    stretchStep 4 2 1 (([3, -4, 3, -4, 3, -4, 3] : List ℝ), [0, 0, 0, 0],
      [0, 0, 0, 0, 0, 0, 0, 0, 0, 0, 0]) 0
    = (([3, -4, 3, -4, 3, -4, 3] : List ℝ), [0, 0, 0, 0],
      [0, -(27/32), -(9/32), 0, 0, 0, 0, 0, 0, 0, 0]) := by
  have ha1 : (([3, -4, 3, -4, 3, -4, 3] : List ℝ)).take 4 = [3, -4, 3, -4] := rfl
  have ha2 : (([3, -4, 3, -4, 3, -4, 3] : List ℝ).drop 2).take 4 = [3, -4, 3, -4] := rfl
  have hw : List.zipWith (· * ·) (hanning 4) ([3, -4, 3, -4] : List ℝ) = [0, -3, 9/4, 0] := by
    rw [hanning_four]
    simp only [List.zipWith_cons_cons, List.zipWith_nil_right]
    norm_num
  have hmapc : ([0, -3, 9/4, 0] : List ℝ).map Complex.ofReal = [(0:ℂ), -3, 9/4, 0] := by
    simp only [List.map_cons, List.map_nil]
    push_cast
    rfl
  have hfft : fft [(0:ℂ), -3, 9/4, 0]
      = [((-(3/4):ℝ):ℂ), ((-(9/4):ℝ):ℂ) + ((3:ℝ):ℂ) * Complex.I, ((21/4:ℝ):ℂ),
         ((-(9/4):ℝ):ℂ) + ((-3:ℝ):ℂ) * Complex.I] := by
    rw [fft_four]
    simp only [List.cons.injEq, and_true]
    refine ⟨by push_cast; ring, by push_cast; ring, by push_cast; ring, by push_cast; ring⟩
  have hne0 : ((-(3/4):ℝ):ℂ) ≠ 0 := by
    rw [Complex.ofReal_ne_zero]
    norm_num
  have hne1 : ((-(9/4):ℝ):ℂ) + ((3:ℝ):ℂ) * Complex.I ≠ 0 := by
    intro hcontra
    have him := congrArg Complex.im hcontra
    simp at him
  have hne2 : ((21/4:ℝ):ℂ) ≠ 0 := by
    rw [Complex.ofReal_ne_zero]
    norm_num
  have hne3 : ((-(9/4):ℝ):ℂ) + ((-3:ℝ):ℂ) * Complex.I ≠ 0 := by
    intro hcontra
    have him := congrArg Complex.im hcontra
    simp at him
  have hdiv : List.zipWith (· / ·)
      [((-(3/4):ℝ):ℂ), ((-(9/4):ℝ):ℂ) + ((3:ℝ):ℂ) * Complex.I, ((21/4:ℝ):ℂ),
         ((-(9/4):ℝ):ℂ) + ((-3:ℝ):ℂ) * Complex.I]
      [((-(3/4):ℝ):ℂ), ((-(9/4):ℝ):ℂ) + ((3:ℝ):ℂ) * Complex.I, ((21/4:ℝ):ℂ),
         ((-(9/4):ℝ):ℂ) + ((-3:ℝ):ℂ) * Complex.I] = [1, 1, 1, 1] := by
    simp only [List.zipWith_cons_cons, List.zipWith_nil_right]
    rw [div_self hne0, div_self hne1, div_self hne2, div_self hne3]
  have hargs : ([(1:ℂ), 1, 1, 1]).map Complex.arg = [0, 0, 0, 0] := by
    simp [Complex.arg_one]
  have hphase : List.zipWith phaseUpdate ([0, 0, 0, 0] : List ℝ) ([0, 0, 0, 0] : List ℝ)
      = ([0, 0, 0, 0] : List ℝ) := by
    simp only [List.zipWith_cons_cons, List.zipWith_nil_right, phaseUpdate_zero]
  have habs : ([((-(3/4):ℝ):ℂ), ((-(9/4):ℝ):ℂ) + ((3:ℝ):ℂ) * Complex.I, ((21/4:ℝ):ℂ),
      ((-(9/4):ℝ):ℂ) + ((-3:ℝ):ℂ) * Complex.I]).map Complex.abs
      = [3/4, 15/4, 21/4, 15/4] := by
    simp only [List.map_cons, List.map_nil,
      cabs_add_mul_I (-(9/4)) 3 (15/4) (by norm_num) (by norm_num),
      cabs_add_mul_I (-(9/4)) (-3) (15/4) (by norm_num) (by norm_num),
      Complex.abs_ofReal]
    norm_num
  have hreph : List.zipWith (fun (r p : ℝ) => (r : ℂ) * Complex.exp (Complex.I * (p : ℂ)))
      ([3/4, 15/4, 21/4, 15/4] : List ℝ) ([0, 0, 0, 0] : List ℝ)
      = [((3/4:ℝ):ℂ), ((15/4:ℝ):ℂ), ((21/4:ℝ):ℂ), ((15/4:ℝ):ℂ)] := by
    simp [Complex.exp_zero]
  have hifft : ifft [((3/4:ℝ):ℂ), ((15/4:ℝ):ℂ), ((21/4:ℝ):ℂ), ((15/4:ℝ):ℂ)]
      = [((27/8:ℝ):ℂ), ((-(9/8):ℝ):ℂ), ((-(3/8):ℝ):ℂ), ((-(9/8):ℝ):ℂ)] := by
    rw [ifft_four]
    simp only [List.cons.injEq, and_true]
    refine ⟨by push_cast; ring, by push_cast; ring, by push_cast; ring, by push_cast; ring⟩
  have hre : ([((27/8:ℝ):ℂ), ((-(9/8):ℝ):ℂ), ((-(3/8):ℝ):ℂ), ((-(9/8):ℝ):ℂ)]).map Complex.re
      = ([27/8, -(9/8), -(3/8), -(9/8)] : List ℝ) := by
    simp
  have hwr : List.zipWith (· * ·) (hanning 4) ([27/8, -(9/8), -(3/8), -(9/8)] : List ℝ)
      = [0, -(27/32), -(9/32), 0] := by
    rw [hanning_four]
    simp only [List.zipWith_cons_cons, List.zipWith_nil_right]
    norm_num
  have haddS : addSlice ([0, 0, 0, 0, 0, 0, 0, 0, 0, 0, 0] : List ℝ) 0
      [0, -(27/32), -(9/32), 0] = [0, -(27/32), -(9/32), 0, 0, 0, 0, 0, 0, 0, 0] := by
    simp [addSlice]
  simp only [stretchStep, trunc_zero, Int.toNat_zero, List.drop_zero, zero_add,
    ha1, ha2, hw, hmapc, hfft, hdiv, hargs, hphase, habs, hreph, hifft, hre, hwr,
    Int.cast_zero, zero_div, haddS]

lemma stretchIndices_r12 : stretchIndices 7 1 4 2 = [0] := by
  rw [stretchIndices]
  rw [arange_eval (N := 1) _ _ _ (by norm_num) (by norm_num)]
  simp only [List.range_succ, List.range_zero, List.map_append, List.map_cons, List.map_nil,
    List.nil_append, List.cons_append]
  norm_num

lemma stretchRaw_r2 : stretchRaw ([3, 4, 3, 4, 3, 4, 3] : List ℝ) 1 4 2
    = [0, 27/32, -(9/32), 0, 0, 0, 0, 0, 0, 0, 0] := by
  have hlen : ([3, 4, 3, 4, 3, 4, 3] : List ℝ).length = 7 := rfl
  rw [stretchRaw, hlen, stretchIndices_r12]
  rw [show (trunc (((7:ℕ) : ℝ) / 1 + ((4:ℕ) : ℝ))).toNat = 11 by
    norm_num [trunc]
    decide]
  rw [show List.replicate 11 (0:ℝ) = [0, 0, 0, 0, 0, 0, 0, 0, 0, 0, 0] from rfl,
    show List.replicate 4 (0:ℝ) = [0, 0, 0, 0] from rfl]
  rw [List.foldl_cons, stretchStep_r2, List.foldl_nil]

lemma stretchRaw_r1 : stretchRaw ([3, -4, 3, -4, 3, -4, 3] : List ℝ) 1 4 2
    = [0, -(27/32), -(9/32), 0, 0, 0, 0, 0, 0, 0, 0] := by
  have hlen : ([3, -4, 3, -4, 3, -4, 3] : List ℝ).length = 7 := rfl
  rw [stretchRaw, hlen, stretchIndices_r12]
  rw [show (trunc (((7:ℕ) : ℝ) / 1 + ((4:ℕ) : ℝ))).toNat = 11 by
    norm_num [trunc]
    decide]
  rw [show List.replicate 11 (0:ℝ) = [0, 0, 0, 0, 0, 0, 0, 0, 0, 0, 0] from rfl,
    show List.replicate 4 (0:ℝ) = [0, 0, 0, 0] from rfl]
  rw [List.foldl_cons, stretchStep_r1, List.foldl_nil]

lemma listMax_r2 : listMax ([0, 27/32, -(9/32), 0, 0, 0, 0, 0, 0, 0, 0] : List ℝ) = 27/32 := by
  norm_num [listMax, max_def]

lemma listMax_r1 : listMax ([0, -(27/32), -(9/32), 0, 0, 0, 0, 0, 0, 0, 0] : List ℝ) = 0 := by
  norm_num [listMax, max_def]

lemma stretch_r2 : stretch ([3, 4, 3, 4, 3, 4, 3] : List ℝ) 1 4 2
    = [0, 4096, -1365, 0, 0, 0, 0, 0, 0, 0, 0] := by
  rw [stretch, stretchRaw_r2, listMax_r2]
  simp only [List.map_cons, List.map_nil]
  norm_num [trunc, wrap16, Int.ceil_neg]

lemma stretch_r1 : stretch ([3, -4, 3, -4, 3, -4, 3] : List ℝ) 1 4 2
    = List.replicate 11 0 := by
  rw [stretch, stretchRaw_r1, listMax_r1]
  simp only [List.map_cons, List.map_nil]
  norm_num [trunc, wrap16]
  rfl

lemma rpow_zero_semitones : ((2:ℝ) ^ ((1 * ((0:ℤ) : ℝ)) / 12)) = 1 := by
  rw [show (1 * ((0:ℤ) : ℝ)) / 12 = (0:ℝ) by norm_num]
  exact Real.rpow_zero 2

lemma speedx_zeros_one : speedx ([0, 0, 0, 0, 0, 0, 0] : List ℤ) (1:ℝ) = [0, 0, 0, 0, 0, 0, 0] := by
  rw [speedx]
  rw [show (([0, 0, 0, 0, 0, 0, 0] : List ℤ).length : ℝ) = 7 by norm_num]
  rw [arange_eval (N := 7) _ _ _ (by norm_num) (by norm_num)]
  simp only [List.range_succ, List.range_zero, List.map_append, List.map_cons,
    List.map_nil, List.nil_append, List.cons_append]
  norm_num [npround, Int.fract, round_eq]
  decide

/-- C4 (counterexample): `pitchshift(buffer, 0)` — factor 1 — does not reproduce
the buffer's sample values: for the 7-sample buffer `[3,4,3,4,3,4,3]` (window 4,
hop 2) the result is all zeros, because `stretch` re-windows, re-phases and
re-normalizes to peak `2^12` and the first `window_size` samples (here the
entire overlap-add support) are discarded, so the output bears no relation to
the input amplitudes. -/
theorem pitchshift_zero_not_identity :
    pitchshift ([3, 4, 3, 4, 3, 4, 3] : List ℝ) 0 4 2 = List.replicate 7 0 ∧
      (List.replicate 7 (0:ℤ)).map (fun (z : ℤ) => (z : ℝ)) ≠ ([3, 4, 3, 4, 3, 4, 3] : List ℝ) := by
  constructor
  · simp only [pitchshift, rpow_zero_semitones]
    rw [show (1:ℝ)/1 = 1 by norm_num]
    rw [stretch_r2]
    rw [show ([0, 4096, -1365, 0, 0, 0, 0, 0, 0, 0, 0] : List ℤ).drop 4
      = [0, 0, 0, 0, 0, 0, 0] from rfl]
    rw [speedx_zeros_one]
    rfl
  · intro hcontra
    rw [show (List.replicate 7 (0:ℤ)).map (fun (z : ℤ) => (z : ℝ)) = List.replicate 7 (0:ℝ) by
      simp]
      at hcontra
    have h0 := congrArg (fun l => l.getD 0 1) hcontra
    norm_num [List.getD] at h0

/-- C4 (amended): `pitchshift(buffer, 0)` reproduces the input buffer's length
exactly, for every buffer and window/hop configuration: the stretch result has
length `len + window_size`, the first `window_size` samples are dropped, and
resampling by factor 1 is the identity re-indexing. -/
theorem pitchshift_zero_semitones_length (snd : List ℝ) (ws h : ℕ) :
    (pitchshift snd 0 ws h).length = snd.length := by
  simp only [pitchshift, rpow_zero_semitones]
  rw [show (1:ℝ)/1 = 1 by norm_num]
  have h1 : (stretch snd 1 ws h).length = (trunc ((snd.length : ℝ) / 1 + (ws:ℝ))).toNat := by
    rw [stretch, List.length_map, stretchRaw_length]
  have h2 : (trunc ((snd.length : ℝ) / 1 + (ws:ℝ))).toNat = snd.length + ws := by
    rw [div_one, show ((snd.length : ℝ) + (ws : ℝ)) = ((snd.length + ws : ℕ) : ℝ) by
      push_cast; ring, trunc_natCast, Int.toNat_natCast]
  have h3 := speedx_nat_factor_length (α := ℝ) ((stretch snd 1 ws h).drop ws) 1 (le_refl 1)
  rw [Nat.cast_one] at h3
  rw [h3, List.length_drop, h1, h2]
  rw [show snd.length + ws - ws = snd.length by omega]
  rw [div_one, Int.ceil_natCast, Int.toNat_natCast]

lemma le_foldl_max {β : Type} [LinearOrder β] (l : List β) (a : β) : a ≤ l.foldl max a := by
  induction l generalizing a with
  | nil => exact le_refl a
  | cons y ys ih => exact le_trans (le_max_left a y) (ih (max a y))

lemma mem_le_foldl_max {β : Type} [LinearOrder β] (l : List β) (a : β) {x : β} (hx : x ∈ l) :
    x ≤ l.foldl max a := by
  induction l generalizing a with
  | nil => cases hx
  | cons y ys ih =>
    rcases List.mem_cons.mp hx with rfl | hmem
    · exact le_trans (le_max_right a x) (le_foldl_max ys (max a x))
    · exact ih (max a y) hmem

lemma foldl_max_mem {β : Type} [LinearOrder β] (l : List β) (a : β) :
    l.foldl max a = a ∨ l.foldl max a ∈ l := by
  induction l generalizing a with
  | nil => exact Or.inl rfl
  | cons y ys ih =>
    rcases ih (max a y) with heq | hmem
    · rcases max_choice a y with hc | hc
      · exact Or.inl (by rw [List.foldl_cons, heq, hc])
      · exact Or.inr (by rw [List.foldl_cons, heq, hc]; exact List.mem_cons_self y ys)
    · exact Or.inr (List.mem_cons_of_mem y hmem)

lemma listMax_mem {β : Type} [LinearOrder β] [Zero β] (l : List β) (hne : l ≠ []) :
    listMax l ∈ l := by
  match l, hne with
  | x :: xs, _ =>
    rw [listMax]
    rcases foldl_max_mem xs x with heq | hmem
    · rw [heq]
      exact List.mem_cons_self x xs
    · exact List.mem_cons_of_mem x hmem

lemma trunc_abs_le {α : Type} [LinearOrderedField α] [FloorRing α] {x : α} {B : ℤ}
    (h1 : -(B : α) ≤ x) (h2 : x ≤ (B : α)) : -B ≤ trunc x ∧ trunc x ≤ B := by
  rw [trunc]
  split
  · constructor
    · have hx : ((-B : ℤ) : α) ≤ ((⌈x⌉ : ℤ) : α) := by
        push_cast
        exact le_trans h1 (Int.le_ceil x)
      exact_mod_cast hx
    · exact Int.ceil_le.mpr h2
  · constructor
    · exact Int.le_floor.mpr (le_trans (by push_cast; exact le_refl _) h1)
    · have hx : ((⌊x⌋ : ℤ) : α) ≤ (B : α) := le_trans (Int.floor_le x) h2
      exact_mod_cast hx

lemma acc_le_foldl_maxAbs (l : List ℤ) (acc : ℤ) :
    acc ≤ l.foldl (fun a x => max a |x|) acc := by
  induction l generalizing acc with
  | nil => exact le_refl acc
  | cons y ys ih => exact le_trans (le_max_left acc |y|) (ih (max acc |y|))

lemma foldl_maxAbs_le (l : List ℤ) (B : ℤ) (acc : ℤ) (hacc : acc ≤ B)
    (hl : ∀ x ∈ l, |x| ≤ B) : l.foldl (fun a x => max a |x|) acc ≤ B := by
  induction l generalizing acc with
  | nil => exact hacc
  | cons y ys ih =>
    exact ih (max acc |y|) (max_le hacc (hl y (List.mem_cons_self y ys)))
      (fun x hx => hl x (List.mem_cons_of_mem y hx))

lemma le_foldl_maxAbs (l : List ℤ) (acc : ℤ) {x : ℤ} (hx : x ∈ l) :
    |x| ≤ l.foldl (fun a x => max a |x|) acc := by
  induction l generalizing acc with
  | nil => cases hx
  | cons y ys ih =>
    rcases List.mem_cons.mp hx with rfl | hmem
    · exact le_trans (le_max_right acc |x|) (acc_le_foldl_maxAbs ys (max acc |x|))
    · exact ih (max acc |y|) hmem

lemma intMaxAbs_eq_of (l : List ℤ) (B : ℤ) (hB : 0 ≤ B) (hmem : B ∈ l)
    (hbound : ∀ y ∈ l, |y| ≤ B) : intMaxAbs l = B := by
  refine le_antisymm (foldl_maxAbs_le l B 0 hB hbound) ?_
  calc B = |B| := (abs_of_nonneg hB).symm
    _ ≤ l.foldl (fun a x => max a |x|) 0 := le_foldl_maxAbs l 0 hmem

/-- C3 (amended): when the unnormalized stretch accumulator has a positive
signed maximum that dominates every sample in absolute value, the normalization
`(2^12) * result / result.max()` maps every sample into the signed 16-bit range
with no wrap-around, and the maximum absolute sample of the returned buffer is
exactly `2^12 = 4096`.  (The source divides by the signed maximum
`result.max()`, not by the maximum absolute value, so the positive-dominance
hypothesis is necessary — see the counterexample.) -/
theorem stretch_normalized_peak (snd : List ℝ) (f : ℝ) (ws h : ℕ)
    (hmax : 0 < listMax (stretchRaw snd f ws h))
    (hdom : ∀ x ∈ stretchRaw snd f ws h, |x| ≤ listMax (stretchRaw snd f ws h)) :
    (∀ y ∈ stretch snd f ws h, -32768 ≤ y ∧ y ≤ 32767) ∧
      intMaxAbs (stretch snd f ws h) = 4096 := by
  have key : ∀ x ∈ stretchRaw snd f ws h,
      -(4096 : ℤ) ≤ trunc ((2 ^ (16 - 4) : ℝ) * x / listMax (stretchRaw snd f ws h)) ∧
        trunc ((2 ^ (16 - 4) : ℝ) * x / listMax (stretchRaw snd f ws h)) ≤ 4096 := by
    intro x hx
    have hM0 : (0:ℝ) < listMax (stretchRaw snd f ws h) := hmax
    have habs := hdom x hx
    have hup : (2 ^ (16 - 4) : ℝ) * x / listMax (stretchRaw snd f ws h) ≤ ((4096 : ℤ) : ℝ) := by
      rw [div_le_iff₀ hM0]
      have hxle : x ≤ listMax (stretchRaw snd f ws h) := (abs_le.mp habs).2
      push_cast
      nlinarith
    have hlo : -((4096 : ℤ) : ℝ) ≤ (2 ^ (16 - 4) : ℝ) * x / listMax (stretchRaw snd f ws h) := by
      rw [le_div_iff₀ hM0]
      have hxge : -(listMax (stretchRaw snd f ws h)) ≤ x := (abs_le.mp habs).1
      push_cast
      nlinarith
    exact trunc_abs_le hlo hup
  have himg : ∀ y ∈ stretch snd f ws h, -(4096 : ℤ) ≤ y ∧ y ≤ 4096 := by
    intro y hy
    rw [stretch, List.mem_map] at hy
    obtain ⟨x, hx, rfl⟩ := hy
    obtain ⟨k1, k2⟩ := key x hx
    rw [wrap16_eq_self (by omega) (by omega)]
    exact ⟨k1, k2⟩
  constructor
  · intro y hy
    obtain ⟨k1, k2⟩ := himg y hy
    omega
  · have hne : stretchRaw snd f ws h ≠ [] := by
      intro h0
      rw [h0] at hmax
      exact absurd hmax (by norm_num [listMax])
    have hMmem := listMax_mem (stretchRaw snd f ws h) hne
    have h4096 : (4096 : ℤ) ∈ stretch snd f ws h := by
      rw [stretch, List.mem_map]
      refine ⟨listMax (stretchRaw snd f ws h), hMmem, ?_⟩
      rw [mul_div_assoc, div_self (ne_of_gt hmax), mul_one]
      rw [show trunc ((2 ^ (16 - 4) : ℝ)) = 4096 by norm_num [trunc]]
      decide
    refine intMaxAbs_eq_of _ 4096 (by norm_num) h4096 ?_
    intro y hy
    obtain ⟨k1, k2⟩ := himg y hy
    rw [abs_le]
    omega

/-- Witness for C3's amended theorem at the buffer `[3,4,3,4,3,4,3]` (window 4,
hop 2, factor 1): the unnormalized accumulator is `[0, 27/32, -9/32, 0, …]` —
positive maximum `27/32` dominating all samples — and the returned buffer
`[0, 4096, -1365, 0, …]` has maximum absolute sample exactly `4096`. -/
theorem stretch_normalized_peak_witness :
    0 < listMax (stretchRaw ([3, 4, 3, 4, 3, 4, 3] : List ℝ) 1 4 2) ∧
      intMaxAbs (stretch ([3, 4, 3, 4, 3, 4, 3] : List ℝ) 1 4 2) = 4096 := by
  have hmax : 0 < listMax (stretchRaw ([3, 4, 3, 4, 3, 4, 3] : List ℝ) 1 4 2) := by
    rw [stretchRaw_r2, listMax_r2]
    norm_num
  have hdom : ∀ x ∈ stretchRaw ([3, 4, 3, 4, 3, 4, 3] : List ℝ) 1 4 2,
      |x| ≤ listMax (stretchRaw ([3, 4, 3, 4, 3, 4, 3] : List ℝ) 1 4 2) := by
    rw [stretchRaw_r2, listMax_r2]
    intro x hx
    fin_cases hx <;> (rw [abs_le]; constructor <;> norm_num)
  exact ⟨hmax, (stretch_normalized_peak [3, 4, 3, 4, 3, 4, 3] 1 4 2 hmax hdom).2⟩

/-- C3 (counterexample): for the buffer `[3,-4,3,-4,3,-4,3]` (window 4, hop 2,
factor 1) the unnormalized stretch result is non-zero (`[0, -27/32, -9/32, 0,
…]`) but every sample is ≤ 0, so the signed maximum `result.max()` is `0`;
the normalization divides by this zero peak (NaN in numpy, cast to 0 by
`astype('int16')`; `x / 0 = 0` in the embedding) and the returned buffer is all
zeros — its maximum absolute sample is `0`, not `2^12` within 1 unit.  The
normalization does not scale by `2^12` over the maximum absolute value. -/
theorem stretch_peak_counterexample :
    stretchRaw ([3, -4, 3, -4, 3, -4, 3] : List ℝ) 1 4 2 ≠ List.replicate 11 0 ∧
      stretch ([3, -4, 3, -4, 3, -4, 3] : List ℝ) 1 4 2 = List.replicate 11 0 ∧
      intMaxAbs (stretch ([3, -4, 3, -4, 3, -4, 3] : List ℝ) 1 4 2) = 0 := by
  refine ⟨?_, stretch_r1, ?_⟩
  · rw [stretchRaw_r1, show List.replicate 11 (0:ℝ) = [0, 0, 0, 0, 0, 0, 0, 0, 0, 0, 0] from rfl]
    norm_num
  · rw [stretch_r1]
    decide
